import Mathlib

/-!
Verification development for the `deep-copy` generator (`main.go`).

The Go program walks `go/types` type descriptors and emits the text of a
`DeepCopy` method for each requested type.  This file gives a shallow
embedding of its data model and operations:

* `GoType` models `types.Type` values as seen by the generator: basics,
  named types (as indices into a declaration environment, mirroring
  declaration identity of `*types.Named`), struct/slice/array/pointer/
  chan/map composites, function and interface types.
* `TypeDecl`/`GoMethod` model a named type's declaration: package,
  underlying type, and declared method signatures.
* `identical` models `types.Identical` (declaration identity on named
  types, structural identity elsewhere).
* `reducePointer` models the duck-typed `pointer` interface
  `interface { Elem() types.Type }`: note that in `go/types` not only
  `*types.Pointer` but also `*types.Slice`, `*types.Array`, `*types.Chan`
  and `*types.Map` have an `Elem() types.Type` method, so the type
  assertion in `reducePointer` succeeds for all of them.
* `walkType`, `hasDeepCopy`, `reuseDeepCopy` (as `detectReuse`/`reuseEmit`),
  `getElemType`, `selToIdent`, `generateFunc`, `generateFile`, `locateType`,
  `run` and the `main`/`outputVal` control flow are translated statement by
  statement.  Emission goes into an accumulated result string instead of an
  `io.Writer`; the shared `imports` map is threaded explicitly; `walkType`
  takes a fuel argument, with `none` modelling non-termination of the Go
  recursion; `format.Source` and `packages.Load` are external collaborators
  and appear as function/value parameters.
-/

set_option maxRecDepth 20000

namespace DeepCopyGo

/-- Model of `types.Type` as used by the generator.  A named type is an
index into the declaration environment (`List TypeDecl`), which models the
declaration identity of `*types.Named`.  Struct fields are
`(name, type, exported?)` triples; interface methods are
`(name, #params, #results, receiver type, result type)` tuples.
`funcTy` carries the rendering of the signature (used only by
`typeString`); the generator never looks inside function types. -/
inductive GoType : Type where
  | basic (bname : String)
  | namedRef (id : Nat)
  | struct (fields : List (String × GoType × Bool))
  | slice (elem : GoType)
  | array (len : Nat) (elem : GoType)
  | ptr (elem : GoType)
  | chan (elem : GoType)
  | map (key value : GoType)
  | funcTy (sig : String)
  | interfaceTy (methods : List (String × Nat × Nat × GoType × GoType))

mutual

/-- Model of `types.Identical`: named types are identical exactly when they
are the same declaration; all other kinds are compared structurally. -/
def identical : GoType → GoType → Bool
  | .basic a, .basic b => a == b
  | .namedRef a, .namedRef b => a == b
  | .struct fa, .struct fb => identicalFields fa fb
  | .slice a, .slice b => identical a b
  | .array n a, .array m b => n == m && identical a b
  | .ptr a, .ptr b => identical a b
  | .chan a, .chan b => identical a b
  | .map ka va, .map kb vb => identical ka kb && identical va vb
  | .funcTy a, .funcTy b => a == b
  | .interfaceTy ma, .interfaceTy mb => identicalSigs ma mb
  | _, _ => false

/-- Field-list part of `identical`. -/
def identicalFields : List (String × GoType × Bool) → List (String × GoType × Bool) → Bool
  | [], [] => true
  | (na, ta, ea) :: ra, (nb, tb, eb) :: rb =>
    na == nb && ea == eb && identical ta tb && identicalFields ra rb
  | _, _ => false

/-- Method-list part of `identical`. -/
def identicalSigs : List (String × Nat × Nat × GoType × GoType) →
    List (String × Nat × Nat × GoType × GoType) → Bool
  | [], [] => true
  | (na, pa, qa, ra, ta) :: xs, (nb, pb, qb, rb, tb) :: ys =>
    na == nb && pa == pb && qa == qb && identical ra rb && identical ta tb &&
      identicalSigs xs ys
  | _, _ => false

end

/-- One declared method, as `hasDeepCopy` inspects it: its name, the
lengths of `sig.Params()` and `sig.Results()`, the receiver type
`sig.Recv().Type()` and the single result type `sig.Results().At(0).Type()`
(meaningful when `nresults = 1`). -/
structure GoMethod where
  mname : String
  nparams : Nat
  nresults : Nat
  recv : GoType
  ret : GoType

/-- One named-type declaration: its package (`none` models
`obj.Pkg() == nil`), package path, name, underlying type and declared
method set. -/
structure TypeDecl where
  pkgName : Option String
  pkgPath : String
  declName : String
  underlying : GoType
  methods : List GoMethod

/-- The import table `map[string]string` (alias ↦ package path), modelled
as an association list with Go map update semantics (`insertA`). -/
abbrev Imports := List (String × String)

/-- Association-list lookup, modelling `imports[name]`. -/
def lookupA : Imports → String → Option String
  | [], _ => none
  | (k, v) :: rest, n => if k = n then some v else lookupA rest n

/-- Association-list update, modelling `imports[name] = path`. -/
def insertA : Imports → String → String → Imports
  | [], k, v => [(k, v)]
  | (k0, v0) :: rest, k, v =>
    if k0 = k then (k, v) :: rest else (k0, v0) :: insertA rest k v

/-- `strings.ReplaceAll(path, "/", "_")`. -/
def flattenPath (p : String) : String :=
  String.mk (p.data.map (fun c => if c = '/' then '_' else c))

/-- The alias-assignment step inlined in `getElemType` (lines 462–466 of
`main.go`): if the package's short name is bound to a different path,
fall back to the flattened path; then record `alias ↦ path`. -/
def registerAlias (imports : Imports) (pname ppath : String) : String × Imports :=
  let nm :=
    match lookupA imports pname with
    | some path => if path ≠ ppath then flattenPath ppath else pname
    | none => pname
  (nm, insertA imports nm ppath)

/-- Model of `reducePointer`.  The Go code asserts to the local interface
`pointer { Elem() types.Type }`; in `go/types` the types with an
`Elem() types.Type` method are `*Pointer`, `*Slice`, `*Array`, `*Chan`
and `*Map` (for maps, `Elem` is the value type), so all of them are
"reduced". -/
def reducePointer : GoType → GoType × Bool
  | .ptr e => (e, true)
  | .slice e => (e, true)
  | .array _ e => (e, true)
  | .chan e => (e, true)
  | .map _ v => (v, true)
  | t => (t, false)

/-- Model of `objFromType`: reduce once, then require a named type; returns
the declaration id together with its data. -/
def objFromType (env : List TypeDecl) (t : GoType) : Option (Nat × TypeDecl) :=
  match (reducePointer t).1 with
  | .namedRef id =>
    match env.get? id with
    | some d => some (id, d)
    | none => none
  | _ => none

mutual

/-- Model of `types.Type.String()` as far as the generator can observe it
(the `else` branch of `getElemType`).  Named types render with their full
package path, as in `go/types`. -/
def typeString (env : List TypeDecl) : GoType → String
  | .basic s => s
  | .namedRef id =>
    match env.get? id with
    | some d =>
      match d.pkgName with
      | some _ => d.pkgPath ++ "." ++ d.declName
      | none => d.declName
    | none => "invalid type"
  | .struct fs => "struct\x7b" ++ typeStringFields env fs ++ "\x7d"
  | .slice e => "[]" ++ typeString env e
  | .array n e => "[" ++ toString n ++ "]" ++ typeString env e
  | .ptr e => "*" ++ typeString env e
  | .chan e => "chan " ++ typeString env e
  | .map k v => "map[" ++ typeString env k ++ "]" ++ typeString env v
  | .funcTy sig => sig
  | .interfaceTy ms => "interface\x7b" ++ typeStringSigs env ms ++ "\x7d"

/-- Field-list part of `typeString`. -/
def typeStringFields (env : List TypeDecl) : List (String × GoType × Bool) → String
  | [] => ""
  | (n, t, _) :: rest => n ++ " " ++ typeString env t ++ "; " ++ typeStringFields env rest

/-- Method-list part of `typeString`. -/
def typeStringSigs (env : List TypeDecl) : List (String × Nat × Nat × GoType × GoType) → String
  | [] => ""
  | (n, _, _, _, _) :: rest => n ++ "(); " ++ typeStringSigs env rest

end

/-- Model of `getElemType`: resolve the element type's name, registering a
cross-module alias in `imports` when the declaring package differs from the
target package `x`; non-named (after one reduction) types render via
`typeString`; a `*`-prefix is added for pointer types unless `rawkind`. -/
def getElemType (env : List TypeDecl) (t : GoType) (x : String) (imports : Imports)
    (rawkind : Bool) : String × Imports :=
  let res : String × Imports :=
    match objFromType env t with
    | some idd =>
      match idd.2.pkgName with
      | some pn =>
        if pn ≠ x then
          let ai := registerAlias imports pn idd.2.pkgPath
          (ai.1 ++ "." ++ idd.2.declName, ai.2)
        else (idd.2.declName, imports)
      | none => (idd.2.declName, imports)
    | none => (typeString env t, imports)
  let isPtr : Bool := match t with | .ptr _ => true | _ => false
  if ¬ rawkind ∧ isPtr ∧ res.1.front ≠ '*' then ("*" ++ res.1, res.2) else res

/-- Model of `selToIdent`: drop `]`, then map `[` and `.` to `_`. -/
def selToIdent (sel : String) : String :=
  String.mk ((sel.data.filter (fun c => c ≠ ']')).map
    (fun c => if c = '[' ∨ c = '.' then '_' else c))

/-- Model of `sel[strings.Index(sel, ".")+1:]`: the suffix after the first
`.`, or the whole string when there is none (`Index` returns `-1`). -/
def stripDot (s : String) : String :=
  if s.data.contains '.' then String.mk ((s.data.dropWhile (fun c => c ≠ '.')).drop 1) else s

/-- The tuple of a method signature as it appears inside `interfaceTy`. -/
def sigToMethod (t : String × Nat × Nat × GoType × GoType) : GoMethod :=
  ⟨t.1, t.2.1, t.2.2.1, t.2.2.2.1, t.2.2.2.2⟩

/-- Model of the `m.(methoder)` type assertion: in `go/types` the types
with `Method`/`NumMethods` are `*types.Named` and `*types.Interface`;
returns the declared method set. -/
def getMethoder (env : List TypeDecl) : GoType → Option (List GoMethod)
  | .namedRef id =>
    match env.get? id with
    | some d => some d.methods
    | none => none
  | .interfaceTy ms => some (ms.map sigToMethod)
  | _ => none

/-- Model of `m.Underlying()`: named types expose their declaration's
underlying type, every other type is its own underlying type. -/
def underlyingT (env : List TypeDecl) : GoType → GoType
  | .namedRef id =>
    match env.get? id with
    | some d => d.underlying
    | none => .basic "invalid type"
  | t => t

/-- The scan part of `hasDeepCopy` (lines 491–515): look through the
declared methods for one named `DeepCopy` with no parameters and one
result; reduce result and receiver once and compare; on an identity
mismatch the Go code returns `(false, false)` immediately. -/
def hasDeepCopyLoop : List GoMethod → Bool × Bool
  | [] => (false, false)
  | m :: rest =>
    if m.mname ≠ "DeepCopy" then hasDeepCopyLoop rest
    else if m.nparams ≠ 0 ∨ m.nresults ≠ 1 then hasDeepCopyLoop rest
    else
      let rp := reducePointer m.ret
      let sp := reducePointer m.recv
      if identical rp.1 sp.1 then (true, rp.2) else (false, false)

/-- Model of `hasDeepCopy`: a member of the batch being generated is
reported as `(true, pointer)` — `pointer` being the argument passed by the
caller — otherwise the declared methods are scanned. -/
def hasDeepCopy (v : GoType) (ms : List GoMethod) (generating : List GoType)
    (pointer : Bool) : Bool × Bool :=
  if generating.any (fun t => identical v t) then (true, pointer)
  else hasDeepCopyLoop ms

/-- The decision part of `reuseDeepCopy`: `some isPointer` when
`hasDeepCopy` reports a capability on `m` (which must satisfy the
`methoder` assertion), `none` otherwise. -/
def detectReuse (env : List TypeDecl) (m : GoType) (generating : List GoType)
    (pointer : Bool) : Option Bool :=
  match getMethoder env m with
  | some ms =>
    let r := hasDeepCopy m ms generating pointer
    if r.1 then some r.2 else none
  | none => none

/-- The emission part of `reuseDeepCopy` (lines 523–537): direct call when
the requested and reported shapes agree, wrap a value result into a fresh
pointer when a pointer is requested, dereference a pointer result when a
value is requested. -/
def reuseEmit (source sink : String) (pointer isPointer : Bool) : String :=
  if pointer = isPointer then sink ++ " = " ++ source ++ ".DeepCopy()\n"
  else if pointer then
    "retV := " ++ source ++ ".DeepCopy()\n\t" ++ sink ++ " = &retV\n"
  else
    "\x7b\n\tretV := " ++ source ++ ".DeepCopy()\n\t" ++ sink ++ " = *retV\n\x7d\n"

/-- The `case *types.Struct` field loop of `walkType`, with the recursive
call abstracted (`walkType` passes itself at one fuel less).  Unexported
fields of cross-package types are skipped, then the sink path (with the
receiver prefix stripped) is tested against the skip set. -/
def walkFieldsAux (wt : String → String → GoType → Imports → Option (String × Imports))
    (source sink : String) (skips : List String) (needExported : Bool) :
    List (String × GoType × Bool) → Imports → Option (String × Imports)
  | [], imports => some ("", imports)
  | (fname, ftype, exported) :: rest, imports =>
    if needExported ∧ ¬ exported then
      walkFieldsAux wt source sink skips needExported rest imports
    else if skips.contains (stripDot (sink ++ "." ++ fname)) then
      walkFieldsAux wt source sink skips needExported rest imports
    else
      match wt (source ++ "." ++ fname) (sink ++ "." ++ fname) ftype imports with
      | some si =>
        match walkFieldsAux wt source sink skips needExported rest si.2 with
        | some si2 => some (si.1 ++ si2.1, si2.2)
        | none => none
      | none => none

/-- Model of `walkType`.  The returned string is what the Go code writes to
`w`; the `Imports` component is the shared alias table after the call.
`fuel` bounds the recursion depth: `none` models the (possible)
non-termination of the Go recursion, which has no such bound. -/
def walkType (env : List TypeDecl) :
    Nat → String → String → String → GoType → Imports → List String →
    List GoType → Bool → Option (String × Imports)
  | 0, _, _, _, _, _, _, _, _ => none
  | fuel + 1, source, sink, x, m, imports, skips, generating, initial =>
    let needExported : Bool :=
      match m with
      | .namedRef id =>
        match env.get? id with
        | some d =>
          match d.pkgName with
          | some pn => pn ≠ x
          | none => false
        | none => false
      | _ => false
    let reuseTop : Option String :=
      if initial then none
      else
        match detectReuse env m generating false with
        | some isP => some (reuseEmit source sink false isP)
        | none => none
    match reuseTop with
    | some s => some (s, imports)
    | none =>
      match underlyingT env m with
      | .struct fields =>
        walkFieldsAux (fun src snk t imp => walkType env fuel src snk x t imp skips generating false)
          source sink skips needExported fields imports
      | .slice elem =>
        let ki := getElemType env elem x imports false
        let sel := stripDot (if initial then "[i]" else sink ++ "[i]")
        let head := "if " ++ source ++ " != nil \x7b\n\t" ++ sink ++ " = make([]" ++
          ki.1 ++ ", len(" ++ source ++ "))\n" ++ "copy(" ++ sink ++ ", " ++ source ++ ")\n"
        if skips.contains sel then some (head ++ "\x7d\n", ki.2)
        else
          match walkType env fuel (source ++ "[i]") (sink ++ "[i]") x elem ki.2 skips generating false with
          | some bi =>
            if bi.1 = "" then some (head ++ "\x7d\n", bi.2)
            else some (head ++ "    for i := range " ++ source ++ " \x7b\n" ++ bi.1 ++
              "\x7d\n" ++ "\x7d\n", bi.2)
          | none => none
      | .ptr elem =>
        let head := "if " ++ source ++ " != nil \x7b\n"
        let reuseElem : Option String :=
          if initial then none
          else
            match detectReuse env elem generating true with
            | some isP => some (reuseEmit source sink true isP)
            | none => none
        match reuseElem with
        | some s => some (head ++ s ++ "\x7d\n", imports)
        | none =>
          let ki := getElemType env elem x imports true
          match walkType env fuel source sink x elem ki.2 skips generating false with
          | some bi =>
            some (head ++ sink ++ " = new(" ++ ki.1 ++ ")\n\t*" ++ sink ++ " = *" ++
              source ++ "\n" ++ bi.1 ++ "\x7d\n", bi.2)
          | none => none
      | .chan elem =>
        let ki := getElemType env elem x imports false
        some ("if " ++ source ++ " != nil \x7b\n\t" ++ sink ++ " = make(chan " ++ ki.1 ++
          ", cap(" ++ source ++ "))\n\x7d\n", ki.2)
      | .map kt vt =>
        let kk := getElemType env kt x imports false
        let vv := getElemType env vt x kk.2 false
        let sel := stripDot (if initial then "[k]" else sink ++ "[k]")
        let skipBoth := skips.contains sel
        let head := "if " ++ source ++ " != nil \x7b\n\t" ++ sink ++ " = make(map[" ++
          kk.1 ++ "]" ++ vv.1 ++ ", len(" ++ source ++ "))\n\tfor k, v := range " ++
          source ++ " \x7b\n"
        let keyStep : Option (String × String × Imports) :=
          if skipBoth then some ("", "k", vv.2)
          else
            let ck := selToIdent sink ++ "_k"
            match walkType env fuel "k" ck x kt vv.2 skips generating false with
            | some bi =>
              if bi.1 = "" then some ("", "k", bi.2)
              else some ("var " ++ ck ++ " " ++ kk.1 ++ "\n" ++ bi.1, ck, bi.2)
            | none => none
        match keyStep with
        | none => none
        | some ks =>
          let valStep : Option (String × String × Imports) :=
            if skipBoth then some ("", "v", ks.2.2)
            else
              let cv := selToIdent sink ++ "_v"
              match walkType env fuel "v" cv x vt ks.2.2 skips generating false with
              | some bi =>
                if bi.1 = "" then some ("", "v", bi.2)
                else some ("var " ++ cv ++ " " ++ vv.1 ++ "\n" ++ bi.1, cv, bi.2)
              | none => none
          match valStep with
          | none => none
          | some vs =>
            some (head ++ ks.1 ++ vs.1 ++ sink ++ "[" ++ ks.2.1 ++ "] = " ++ vs.2.1 ++
              "\x7d\n\x7d\n", vs.2.2)
      | _ => some ("", imports)

/-- Model of `generateFunc`: the method header, the walk of the requested
type with `initial = true`, and the `return` line.  `x` is the package
name, `objId` the requested declaration. -/
def generateFunc (env : List TypeDecl) (fuel : Nat) (x : String) (objId : Nat)
    (imports : Imports) (skips : List String) (pointer : Bool)
    (generating : List GoType) : Option (String × Imports) :=
  match env.get? objId with
  | none => none
  | some d =>
    let ptr := if pointer then "*" else ""
    let kind := d.declName
    let header := "// DeepCopy generates a deep copy of " ++ ptr ++ kind ++
      "\nfunc (o " ++ ptr ++ kind ++ ") DeepCopy() " ++ ptr ++ kind ++
      " \x7b\n\tvar cp " ++ kind ++ " = " ++ ptr ++ "o\n"
    match walkType env fuel "o" "cp" x (.namedRef objId) imports skips generating true with
    | some bi =>
      some (header ++ bi.1 ++ (if pointer then "return &cp\n\x7d" else "return cp\n\x7d"), bi.2)
    | none => none

/-- `%q` on a package path (paths contain no characters needing escapes). -/
def quoteStr (s : String) : String := "\"" ++ s ++ "\""

/-- The text assembled by `generateFile` before it is handed to
`format.Source`: header comment with the invocation, package clause, the
block of imports (omitting the alias when the path's tail equals it), and the
generated methods separated by blank lines. -/
def assembleFile (argv : List String) (pkgName : String) (imports : Imports)
    (fns : List String) : String :=
  let header := "// generated by " ++ String.intercalate " " argv ++
    "; DO NOT EDIT.\n\npackage " ++ pkgName ++ "\n\n"
  let importBlock :=
    if imports.length > 0 then
      "import (\n" ++
        imports.foldl (fun acc kv =>
          acc ++ (if kv.2.endsWith kv.1 then quoteStr kv.2 ++ "\n"
                  else kv.1 ++ " " ++ quoteStr kv.2 ++ "\n")) "" ++ ")\n"
    else ""
  header ++ importBlock ++ fns.foldl (fun acc fn => acc ++ fn ++ "\n\n") ""

/-- Model of `generateFile`.  `fmtSrc` is the external `format.Source`
collaborator; on failure the error wraps the formatter's message and the
full offending source text. -/
def generateFile (fmtSrc : String → Except String String) (argv : List String)
    (pkgName : String) (imports : Imports) (fns : List String) : Except String String :=
  let file := assembleFile argv pkgName imports fns
  match fmtSrc file with
  | .ok b => .ok b
  | .error e => .error ("error formatting source: " ++ e ++ "\nsource:\n" ++ file)

/-- Model of a loaded `packages.Package`: its name and the types of the
entries of `TypesInfo.Defs` (`none` models a nil `types.Object`). -/
structure GoPackage where
  pname : String
  defs : List (Option GoType)

/-- Model of `exprFilter`: reduce to a named type and require it to be
declared in package `x` under name `sel`. -/
def exprFilter (env : List TypeDecl) (t : GoType) (sel x : String) :
    Option (Nat × TypeDecl) :=
  match objFromType env t with
  | none => none
  | some idd =>
    match idd.2.pkgName with
    | none => none
    | some pn => if x ≠ pn ∨ sel ≠ idd.2.declName then none else some idd

/-- Model of `locateType`: first definition matching the selector wins
(Go iterates a map; the model fixes a list order). -/
def locateType (env : List TypeDecl) (x sel : String) :
    List (Option GoType) → Except String (Nat × TypeDecl)
  | [] => .error "type not found"
  | none :: rest => locateType env x sel rest
  | some t :: rest =>
    match exprFilter env t sel x with
    | some r => .ok r
    | none => locateType env x sel rest

/-- The type-location loop of `run` (lines 153–160). -/
def runObjs (env : List TypeDecl) (x : String) (defs : List (Option GoType)) :
    List String → Except String (List (Nat × TypeDecl))
  | [] => .ok []
  | kind :: rest =>
    match locateType env x kind defs with
    | .error e => .error ("locating type " ++ quoteStr kind ++ " in " ++ quoteStr x ++ ": " ++ e)
    | .ok r =>
      match runObjs env x defs rest with
      | .ok rs => .ok (r :: rs)
      | .error e => .error e

/-- The generation loop of `run` (lines 162–174), threading the shared
alias table; the i-th skip set applies to the i-th request. -/
def runFns (env : List TypeDecl) (fuel : Nat) (x : String) (skips : List (List String))
    (pointer : Bool) (generating : List GoType) :
    List (Nat × TypeDecl) → Nat → Imports → Option (List String × Imports)
  | [], _, imports => some ([], imports)
  | obj :: rest, i, imports =>
    match generateFunc env fuel x obj.1 imports ((skips.get? i).getD []) pointer generating with
    | some fi =>
      match runFns env fuel x skips pointer generating rest (i + 1) fi.2 with
      | some fsi => some (fi.1 :: fsi.1, fsi.2)
      | none => none
    | none => none

/-- Model of `run`.  `loadRes` stands for the external `packages.Load`;
the outer `Option` models termination of the recursive walk (`none` =
the Go code would not return). -/
def run (env : List TypeDecl) (fuel : Nat) (fmtSrc : String → Except String String)
    (argv : List String) (loadRes : Except String (List GoPackage))
    (typesArg : List String) (skipsArg : List (List String)) (pointer : Bool) :
    Option (Except String String) :=
  match loadRes with
  | .error e => some (.error ("loading package: " ++ e))
  | .ok [] => some (.error "no package found")
  | .ok (p :: _) =>
    match runObjs env p.pname p.defs typesArg with
    | .error e => some (.error e)
    | .ok objs =>
      let generating := objs.map (fun r => GoType.namedRef r.1)
      match runFns env fuel p.pname skipsArg pointer generating objs 0 [] with
      | none => none
      | some fsi =>
        match generateFile fmtSrc argv p.pname fsi.2 fsi.1 with
        | .ok b => some (.ok b)
        | .error e => some (.error ("generating file content: " ++ e))

/-- Observable resource events of `main` and `outputVal`. -/
inductive MainEv : Type where
  | openFile (path : String)
  | closeFile
  | truncateFile
  | useStdout
  | writeOut (content : String)
  | fatal (msg : String)
deriving DecidableEq

/-- The `outputVal` flag value: the opened file (if any) and display name. -/
structure OutputVal where
  file : Option String
  oname : String

/-- Model of `outputVal.Set`, invoked during `flag.Parse`: `"-"`/`""`
select stdout (closing a previously opened file); any other value opens
(and creates) the file immediately, leaking a previously opened one. -/
def outputSet (f : OutputVal) (v : String) : OutputVal × List MainEv :=
  if v = "-" ∨ v = "" then
    (⟨none, "stdout"⟩, if f.file.isSome then [.closeFile] else [])
  else (⟨some v, v⟩, [.openFile v])

/-- Folding `outputVal.Set` over the occurrences of `-o`. -/
def parseOutputFlags (oFlags : List String) : OutputVal × List MainEv :=
  oFlags.foldl (fun acc v =>
    let r := outputSet acc.1 v
    (r.1, acc.2 ++ r.2)) (⟨none, ""⟩, [])

/-- Model of `main`: flag parsing (which already opens the `-o` file),
the argument checks, `run`, then `outputVal.Open` (truncate or stdout),
`Write` and `Close`.  `log.Fatalln` exits the process: no further events.
A `runRes` of `none` models a non-terminating generation (no more events
ever). -/
def mainModel (typesArg : List String) (nargs : Nat) (oFlags : List String)
    (runRes : Option (Except String String)) : List MainEv :=
  let pr := parseOutputFlags oFlags
  if typesArg.length = 0 ∨ typesArg.head? = some "" then pr.2 ++ [.fatal "no type given"]
  else if nargs ≠ 1 then pr.2 ++ [.fatal "No package path given"]
  else
    match runRes with
    | none => pr.2
    | some (.error e) => pr.2 ++ [.fatal ("Error generating deep copy method: " ++ e)]
    | some (.ok b) =>
      pr.2 ++ (match pr.1.file with
        | none => [.useStdout, .writeOut b, .closeFile]
        | some _ => [.truncateFile, .writeOut b, .closeFile])

/-- The kinds handled by `walkType`'s `switch` on the underlying type:
`*types.Struct`, `*types.Slice`, `*types.Pointer`, `*types.Chan`,
`*types.Map`.  Every other kind falls through with no emission. -/
def isCopyKind : GoType → Bool
  | .struct _ => true
  | .slice _ => true
  | .ptr _ => true
  | .chan _ => true
  | .map _ _ => true
  | _ => false

/-- The invariant maintained by the alias table across one run when every
path `p` is registered under the short name `pname p`: keys are unique,
every key is the short name or the flattened path of its value, a
flattened-alias entry only exists while its short name is taken by a
different path, and no two keys hold the same path. -/
def AliasInv (pname : String → String) (l : Imports) : Prop :=
  (l.map Prod.fst).Nodup ∧
  (∀ kv ∈ l, kv.1 = pname kv.2 ∨ kv.1 = flattenPath kv.2) ∧
  (∀ p, flattenPath p ≠ pname p → (flattenPath p, p) ∈ l → ∃ q, (pname p, q) ∈ l ∧ q ≠ p) ∧
  (∀ kv ∈ l, ∀ kv2 ∈ l, kv.2 = kv2.2 → kv.1 = kv2.1)

/-- The alias table after one run that registered the cross-module paths
`ps` in order, each under its package's short name `pname p`. -/
def aliasRun (pname : String → String) (ps : List String) : Imports :=
  ps.foldl (fun l p => (registerAlias l (pname p) p).2) []

/-- Example declaration environment: `type T struct { X int }` in package
`p` (path `example.com/p`), no methods. -/
def envT : List TypeDecl :=
  [⟨some "p", "example.com/p", "T", .struct [("X", .basic "int", true)], []⟩]

/-- `TypesInfo.Defs` of the package declaring only `T`. -/
def defsT : List (Option GoType) := [some (.namedRef 0)]

/-- Example environment for the mutual-reference scenario of the spec:
`type A struct { Next *B }` and `type B struct { Prev *A }`, both in
package `p`. -/
def envAB : List TypeDecl :=
  [⟨some "p", "example.com/p", "A", .struct [("Next", .ptr (.namedRef 1), true)], []⟩,
   ⟨some "p", "example.com/p", "B", .struct [("Prev", .ptr (.namedRef 0), true)], []⟩]

/-- `TypesInfo.Defs` of the package declaring `A` and `B`. -/
def defsAB : List (Option GoType) := [some (.namedRef 0), some (.namedRef 1)]

/-- Example environment: `type Arr [4]*int` with a hand-written value-shaped
method `func (a Arr) DeepCopy() Arr`. -/
def envArr : List TypeDecl :=
  [⟨some "p", "example.com/p", "Arr", .array 4 (.ptr (.basic "int")),
    [⟨"DeepCopy", 0, 1, .namedRef 0, .namedRef 0⟩]⟩]

/-! ### Association-list lemmas for the alias table -/

theorem lookupA_eq_none {l : Imports} {k : String} :
    lookupA l k = none ↔ k ∉ l.map Prod.fst := by
  induction l with
  | nil => simp [lookupA]
  | cons kv rest ih =>
    obtain ⟨k0, v0⟩ := kv
    by_cases h : k0 = k
    · simp [lookupA, h]
    · simp [lookupA, h, ih]
      exact fun _ he => h he.symm

theorem lookupA_mem {l : Imports} {k v : String} (h : lookupA l k = some v) : (k, v) ∈ l := by
  induction l with
  | nil => simp [lookupA] at h
  | cons kv rest ih =>
    obtain ⟨k0, v0⟩ := kv
    by_cases hk : k0 = k
    · subst hk
      simp [lookupA] at h
      simp [h]
    · simp [lookupA, hk] at h
      simp [ih h]

theorem mem_lookupA {l : Imports} {k v : String} (hnd : (l.map Prod.fst).Nodup)
    (h : (k, v) ∈ l) : lookupA l k = some v := by
  induction l with
  | nil => simp at h
  | cons kv rest ih =>
    obtain ⟨k0, v0⟩ := kv
    rw [List.map_cons, List.nodup_cons] at hnd
    rcases List.mem_cons.1 h with h | h
    · rw [Prod.mk.injEq] at h
      obtain ⟨h1, h2⟩ := h
      subst h1
      subst h2
      simp [lookupA]
    · have hkr : k ∈ rest.map Prod.fst := List.mem_map.2 ⟨(k, v), h, rfl⟩
      have hne : k0 ≠ k := fun he => hnd.1 (he ▸ hkr)
      simp only [lookupA, if_neg hne]
      exact ih hnd.2 h

theorem insertA_of_not_mem {l : Imports} {k : String} (v : String)
    (h : k ∉ l.map Prod.fst) : insertA l k v = l ++ [(k, v)] := by
  induction l with
  | nil => rfl
  | cons kv rest ih =>
    obtain ⟨k0, v0⟩ := kv
    rw [List.map_cons, List.mem_cons] at h
    push_neg at h
    simp only [insertA, if_neg (Ne.symm h.1), List.cons_append, List.cons.injEq, true_and]
    exact ih h.2

theorem insertA_same {l : Imports} {k v : String} (h : lookupA l k = some v) :
    insertA l k v = l := by
  induction l with
  | nil => simp [lookupA] at h
  | cons kv rest ih =>
    obtain ⟨k0, v0⟩ := kv
    by_cases hk : k0 = k
    · subst hk
      simp [lookupA] at h
      simp [insertA, h]
    · simp only [lookupA, if_neg hk] at h
      simp only [insertA, if_neg hk, List.cons.injEq, true_and]
      exact ih h

theorem keys_insertA_of_mem {l : Imports} {k : String} (v : String)
    (h : k ∈ l.map Prod.fst) : (insertA l k v).map Prod.fst = l.map Prod.fst := by
  induction l with
  | nil => simp at h
  | cons kv rest ih =>
    obtain ⟨k0, v0⟩ := kv
    by_cases hk : k0 = k
    · subst hk
      simp [insertA]
    · rw [List.map_cons, List.mem_cons] at h
      rcases h with h | h
      · exact absurd h.symm hk
      · simp only [insertA, if_neg hk, List.map_cons, ih h]

theorem insertA_keys_nodup {l : Imports} {k v : String}
    (hnd : (l.map Prod.fst).Nodup) : ((insertA l k v).map Prod.fst).Nodup := by
  by_cases h : k ∈ l.map Prod.fst
  · rw [keys_insertA_of_mem v h]
    exact hnd
  · rw [insertA_of_not_mem v h, List.map_append]
    refine List.Nodup.append hnd (List.nodup_singleton k) ?_
    intro a ha hb
    simp at hb
    subst hb
    exact h ha

theorem mem_insertA_self (l : Imports) (k v : String) : (k, v) ∈ insertA l k v := by
  induction l with
  | nil => simp [insertA]
  | cons kv rest ih =>
    obtain ⟨k0, v0⟩ := kv
    by_cases hk : k0 = k <;> simp [insertA, hk, ih]

theorem mem_insertA_of_ne {l : Imports} {kv : String × String} {k : String} (v : String)
    (h : kv ∈ l) (hne : kv.1 ≠ k) : kv ∈ insertA l k v := by
  induction l with
  | nil => simp at h
  | cons kv0 rest ih =>
    obtain ⟨k0, v0⟩ := kv0
    by_cases hk : k0 = k
    · subst hk
      rcases List.mem_cons.1 h with h | h
      · exact absurd (by rw [h]) hne
      · simp only [insertA, if_pos rfl]
        exact List.mem_cons_of_mem _ h
    · rcases List.mem_cons.1 h with h | h
      · simp only [insertA, if_neg hk]
        exact h ▸ List.mem_cons_self _ _
      · simp only [insertA, if_neg hk]
        exact List.mem_cons_of_mem _ (ih h)

theorem mem_insertA_elim {l : Imports} {kv : String × String} {k v : String}
    (hnd : (l.map Prod.fst).Nodup) (h : kv ∈ insertA l k v) :
    kv = (k, v) ∨ (kv ∈ l ∧ kv.1 ≠ k) := by
  induction l with
  | nil =>
    simp [insertA] at h
    exact Or.inl h
  | cons kv0 rest ih =>
    obtain ⟨k0, v0⟩ := kv0
    rw [List.map_cons, List.nodup_cons] at hnd
    by_cases hk : k0 = k
    · subst hk
      simp only [insertA, if_pos rfl] at h
      rcases List.mem_cons.1 h with h | h
      · exact Or.inl h
      · refine Or.inr ⟨List.mem_cons_of_mem _ h, ?_⟩
        have : kv.1 ∈ rest.map Prod.fst := List.mem_map.2 ⟨kv, h, rfl⟩
        exact fun he => hnd.1 (he ▸ this)
    · simp only [insertA, if_neg hk] at h
      rcases List.mem_cons.1 h with h | h
      · refine Or.inr ⟨h ▸ List.mem_cons_self _ _, ?_⟩
        rw [h]
        exact hk
      · rcases ih hnd.2 h with h2 | h2
        · exact Or.inl h2
        · exact Or.inr ⟨List.mem_cons_of_mem _ h2.1, h2.2⟩

/-! ### The alias-table invariant is preserved by `registerAlias` -/

theorem aliasInv_step (pname : String → String) (p : String) {l : Imports}
    (h : AliasInv pname l) : AliasInv pname (registerAlias l (pname p) p).2 := by
  obtain ⟨hnd, hshape, hflat, huniq⟩ := h
  simp only [registerAlias]
  cases hl : lookupA l (pname p) with
  | none =>
    have hk : pname p ∉ l.map Prod.fst := lookupA_eq_none.1 hl
    rw [insertA_of_not_mem _ hk]
    refine ⟨?_, ?_, ?_, ?_⟩
    · rw [List.map_append]
      refine List.Nodup.append hnd (List.nodup_singleton _) ?_
      intro a ha hb
      simp at hb
      subst hb
      exact hk ha
    · intro kv hkv
      rcases List.mem_append.1 hkv with hkv | hkv
      · exact hshape kv hkv
      · simp at hkv
        subst hkv
        exact Or.inl rfl
    · intro p2 hne hmem
      rcases List.mem_append.1 hmem with hmem | hmem
      · obtain ⟨q, hq, hqne⟩ := hflat p2 hne hmem
        exact ⟨q, List.mem_append_left _ hq, hqne⟩
      · simp [Prod.mk.injEq] at hmem
        obtain ⟨h1, h2⟩ := hmem
        subst h2
        exact absurd h1 hne
    · intro kv hkv kv2 hkv2 hval
      have hcontra : ∀ kv3, kv3 ∈ l → kv3.2 = p → False := by
        intro kv3 hm3 hv3
        rcases hshape kv3 hm3 with hs | hs
        · rw [hv3] at hs
          exact hk (List.mem_map.2 ⟨kv3, hm3, hs⟩)
        · rw [hv3] at hs
          by_cases hfp : flattenPath p = pname p
          · rw [hfp] at hs
            exact hk (List.mem_map.2 ⟨kv3, hm3, hs⟩)
          · have hm3' : (flattenPath p, p) ∈ l := by
              have : kv3 = (flattenPath p, p) := Prod.ext hs hv3
              rwa [this] at hm3
            obtain ⟨q, hq, _⟩ := hflat p hfp hm3'
            exact hk (List.mem_map.2 ⟨(pname p, q), hq, rfl⟩)
      rcases List.mem_append.1 hkv with hkv | hkv <;>
        rcases List.mem_append.1 hkv2 with hkv2 | hkv2
      · exact huniq kv hkv kv2 hkv2 hval
      · simp at hkv2
        subst hkv2
        exact absurd (hcontra kv hkv hval) not_false
      · simp at hkv
        subst hkv
        exact absurd (hcontra kv2 hkv2 hval.symm) not_false
      · simp at hkv hkv2
        rw [hkv, hkv2]
  | some q =>
    by_cases hqp : q = p
    · subst hqp
      change AliasInv pname (insertA l (if q ≠ q then flattenPath q else pname q) q)
      rw [if_neg (show ¬ q ≠ q from fun h => h rfl)]
      rw [insertA_same hl]
      exact ⟨hnd, hshape, hflat, huniq⟩
    · have hmemq : (pname p, q) ∈ l := lookupA_mem hl
      change AliasInv pname (insertA l (if q ≠ p then flattenPath p else pname p) p)
      rw [if_pos hqp]
      refine ⟨insertA_keys_nodup hnd, ?_, ?_, ?_⟩
      · intro kv hkv
        rcases mem_insertA_elim hnd hkv with hkv | hkv
        · subst hkv
          exact Or.inr rfl
        · exact hshape kv hkv.1
      · intro p2 hne hmem
        rcases mem_insertA_elim hnd hmem with hmem | hmem
        · rw [Prod.mk.injEq] at hmem
          obtain ⟨hf, hp2⟩ := hmem
          subst hp2
          refine ⟨q, mem_insertA_of_ne _ hmemq ?_, hqp⟩
          exact Ne.symm hne
        · obtain ⟨hmem2, hnef⟩ := hmem
          obtain ⟨q2, hq2, hq2ne⟩ := hflat p2 hne hmem2
          by_cases hpp : pname p2 = flattenPath p
          · have hppne : p ≠ p2 := by
              rintro rfl
              exact hnef rfl
            refine ⟨p, ?_, hppne⟩
            rw [hpp]
            exact mem_insertA_self l (flattenPath p) p
          · exact ⟨q2, mem_insertA_of_ne _ hq2 hpp, hq2ne⟩
      · intro kv hkv kv2 hkv2 hval
        have hcontra : ∀ kv3, kv3 ∈ l → kv3.1 ≠ flattenPath p → kv3.2 = p → False := by
          intro kv3 hm3 hn3 hv3
          rcases hshape kv3 hm3 with hs | hs
          · rw [hv3] at hs
            have : kv3 = (pname p, p) := Prod.ext hs hv3
            rw [this] at hm3
            have hlk := mem_lookupA hnd hm3
            rw [hl] at hlk
            simp at hlk
            exact hqp hlk
          · rw [hv3] at hs
            exact hn3 hs
        rcases mem_insertA_elim hnd hkv with hkv | hkv <;>
          rcases mem_insertA_elim hnd hkv2 with hkv2 | hkv2
        · rw [hkv, hkv2]
        · subst hkv
          exact absurd (hcontra kv2 hkv2.1 hkv2.2 hval.symm) not_false
        · subst hkv2
          exact absurd (hcontra kv hkv.1 hkv.2 hval) not_false
        · exact huniq kv hkv.1 kv2 hkv2.1 hval

/-- The invariant holds for the table built by any one run. -/
theorem aliasRun_inv (pname : String → String) (ps : List String) :
    AliasInv pname (aliasRun pname ps) := by
  have hgen : ∀ l : Imports, AliasInv pname l →
      AliasInv pname (ps.foldl (fun l p => (registerAlias l (pname p) p).2) l) := by
    induction ps with
    | nil => exact fun l h => h
    | cons p rest ih =>
      intro l h
      exact ih _ (aliasInv_step pname p h)
  refine hgen [] ?_
  refine ⟨List.nodup_nil, ?_, ?_, ?_⟩ <;> simp

/-- Distinct aliases map to distinct paths: the values of a table
satisfying the invariant are pairwise distinct. -/
theorem aliasInv_vals_nodup {pname : String → String} {l : Imports}
    (h : AliasInv pname l) : (l.map Prod.snd).Nodup := by
  obtain ⟨hnd, _, _, huniq⟩ := h
  have hl : l.Nodup := hnd.of_map
  exact hl.map_on (fun x hx y hy hxy => Prod.ext (huniq x hx y hy hxy) hxy)

/-! ### The `DeepCopy` method scan -/

theorem hasDeepCopyLoop_no_dc (ms : List GoMethod)
    (h : ∀ m ∈ ms, m.mname ≠ "DeepCopy") : hasDeepCopyLoop ms = (false, false) := by
  induction ms with
  | nil => rfl
  | cons m rest ih =>
    have hm := h m (by simp)
    simp only [hasDeepCopyLoop, if_pos hm]
    exact ih (fun m' hm' => h m' (by simp [hm']))

theorem hasDeepCopyLoop_spec (ms : List GoMethod)
    (huniq : ms.countP (fun m => m.mname == "DeepCopy") ≤ 1) :
    ((hasDeepCopyLoop ms).1 = true ↔
      ∃ m ∈ ms, m.mname = "DeepCopy" ∧ m.nparams = 0 ∧ m.nresults = 1 ∧
        identical (reducePointer m.ret).1 (reducePointer m.recv).1 = true) ∧
    (∀ m ∈ ms, m.mname = "DeepCopy" → m.nparams = 0 → m.nresults = 1 →
      identical (reducePointer m.ret).1 (reducePointer m.recv).1 = true →
      hasDeepCopyLoop ms = (true, (reducePointer m.ret).2)) := by
  induction ms with
  | nil => simp [hasDeepCopyLoop]
  | cons m rest ih =>
    by_cases hname : m.mname = "DeepCopy"
    · have hcnt1 : (m :: rest).countP (fun m => m.mname == "DeepCopy") =
          rest.countP (fun m => m.mname == "DeepCopy") + 1 := by
        simp [List.countP_cons, hname]
      have hcnt : rest.countP (fun m => m.mname == "DeepCopy") = 0 := by omega
      have hrest : ∀ m' ∈ rest, m'.mname ≠ "DeepCopy" := by
        intro m' hm'
        simpa using List.countP_eq_zero.1 hcnt m' hm'
      by_cases hp : m.nparams = 0
      · by_cases hr : m.nresults = 1
        · by_cases hid : identical (reducePointer m.ret).1 (reducePointer m.recv).1 = true
          · have heq : hasDeepCopyLoop (m :: rest) = (true, (reducePointer m.ret).2) := by
              simp [hasDeepCopyLoop, hname, hp, hr, hid]
            refine ⟨⟨fun _ => ⟨m, List.mem_cons_self m rest, hname, hp, hr, hid⟩,
              fun _ => by simp [heq]⟩, ?_⟩
            intro m' hm' h1 h2 h3 h4
            rcases List.mem_cons.1 hm' with rfl | hm'
            · exact heq
            · exact absurd h1 (hrest m' hm')
          · have heq : hasDeepCopyLoop (m :: rest) = (false, false) := by
              simp [hasDeepCopyLoop, hname, hp, hr, hid]
            refine ⟨⟨fun hc => ?_, fun hc => ?_⟩, ?_⟩
            · rw [heq] at hc
              simp at hc
            · rcases hc with ⟨m', hm', h1, h2, h3, h4⟩
              rcases List.mem_cons.1 hm' with rfl | hm'
              · exact absurd h4 hid
              · exact absurd h1 (hrest m' hm')
            · intro m' hm' h1 h2 h3 h4
              rcases List.mem_cons.1 hm' with rfl | hm'
              · exact absurd h4 hid
              · exact absurd h1 (hrest m' hm')
        · have heq : hasDeepCopyLoop (m :: rest) = hasDeepCopyLoop rest := by
            simp [hasDeepCopyLoop, hname, hr]
          have hrz : hasDeepCopyLoop rest = (false, false) := hasDeepCopyLoop_no_dc rest hrest
          refine ⟨⟨fun hc => ?_, fun hc => ?_⟩, ?_⟩
          · rw [heq, hrz] at hc
            simp at hc
          · rcases hc with ⟨m', hm', h1, h2, h3, h4⟩
            rcases List.mem_cons.1 hm' with rfl | hm'
            · exact absurd h3 hr
            · exact absurd h1 (hrest m' hm')
          · intro m' hm' h1 h2 h3 h4
            rcases List.mem_cons.1 hm' with rfl | hm'
            · exact absurd h3 hr
            · exact absurd h1 (hrest m' hm')
      · have heq : hasDeepCopyLoop (m :: rest) = hasDeepCopyLoop rest := by
          simp [hasDeepCopyLoop, hname, hp]
        have hrz : hasDeepCopyLoop rest = (false, false) := hasDeepCopyLoop_no_dc rest hrest
        refine ⟨⟨fun hc => ?_, fun hc => ?_⟩, ?_⟩
        · rw [heq, hrz] at hc
          simp at hc
        · rcases hc with ⟨m', hm', h1, h2, h3, h4⟩
          rcases List.mem_cons.1 hm' with rfl | hm'
          · exact absurd h2 hp
          · exact absurd h1 (hrest m' hm')
        · intro m' hm' h1 h2 h3 h4
          rcases List.mem_cons.1 hm' with rfl | hm'
          · exact absurd h2 hp
          · exact absurd h1 (hrest m' hm')
    · have heq : hasDeepCopyLoop (m :: rest) = hasDeepCopyLoop rest := by
        simp [hasDeepCopyLoop, hname]
      have hcnt : rest.countP (fun m => m.mname == "DeepCopy") ≤ 1 := by
        have h0 : (m :: rest).countP (fun m => m.mname == "DeepCopy") =
            rest.countP (fun m => m.mname == "DeepCopy") := by
          simp [List.countP_cons, hname]
        omega
      obtain ⟨ih1, ih2⟩ := ih hcnt
      refine ⟨⟨fun hc => ?_, fun hc => ?_⟩, ?_⟩
      · obtain ⟨m', hm', hg⟩ := ih1.1 (by rwa [heq] at hc)
        exact ⟨m', List.mem_cons_of_mem m hm', hg⟩
      · rcases hc with ⟨m', hm', h1, h2, h3, h4⟩
        rcases List.mem_cons.1 hm' with rfl | hm'
        · exact absurd h1 hname
        · rw [heq]
          exact ih1.2 ⟨m', hm', h1, h2, h3, h4⟩
      · intro m' hm' h1 h2 h3 h4
        rcases List.mem_cons.1 hm' with rfl | hm'
        · exact absurd h1 hname
        · rw [heq]
          exact ih2 m' hm' h1 h2 h3 h4

/-! ### Resource events of `main` -/

theorem outputSet_no_write (f : OutputVal) (v b : String) :
    MainEv.writeOut b ∉ (outputSet f v).2 := by
  unfold outputSet
  split
  · split <;> simp
  · simp

theorem parse_no_write (oFlags : List String) (b : String) :
    MainEv.writeOut b ∉ (parseOutputFlags oFlags).2 := by
  have hgen : ∀ acc : OutputVal × List MainEv, MainEv.writeOut b ∉ acc.2 →
      MainEv.writeOut b ∉ (oFlags.foldl (fun acc v =>
        let r := outputSet acc.1 v
        (r.1, acc.2 ++ r.2)) acc).2 := by
    induction oFlags with
    | nil => exact fun acc h => h
    | cons v rest ih =>
      intro acc hacc
      refine ih _ ?_
      intro hmem
      rcases List.mem_append.1 hmem with hmem | hmem
      · exact hacc hmem
      · exact outputSet_no_write acc.1 v b hmem
  exact hgen (⟨none, ""⟩, []) (by simp)

/-! ### Claim C1 -/

/-- C1 (counterexample): the Capability Detector's reported shape for a
Generation-Set member is NOT the run-wide pointer-receiver option: `hasDeepCopy`
returns the `pointer` argument passed by its caller (`false` at the top of
`walkType`, `true` in the pointer case), so the same member is reported
value-shaped at one call site and pointer-shaped at another within the same
run — the claim's "shape equals the run-wide option, regardless of the shape
requested at the call site" fails for any run configured with
`-pointer-receiver` (shape `true`) whose walk asks with call-site shape
`false`. -/
theorem c1_counterexample :
    hasDeepCopy (.namedRef 0) [] [.namedRef 0] false = (true, false) ∧
    hasDeepCopy (.namedRef 0) [] [.namedRef 0] true = (true, true) ∧
    (hasDeepCopy (.namedRef 0) [] [.namedRef 0] false).2 ≠
      (hasDeepCopy (.namedRef 0) [] [.namedRef 0] true).2 := by
  exact ⟨rfl, rfl, by decide⟩

/-- C1 (amended): for every type descriptor identical (by declaration
identity) to a member of the Generation Set, the Capability Detector reports
a reusable capability whose pointer-vs-value shape equals the shape
requested at the call site (the `pointer` argument), regardless of the
run-wide pointer-receiver option — which is not consulted. -/
theorem c1_amended (v : GoType) (ms : List GoMethod) (generating : List GoType) (p : Bool)
    (h : ∃ t ∈ generating, identical v t = true) :
    hasDeepCopy v ms generating p = (true, p) := by
  simp [hasDeepCopy, h]

/-- C1 (witness): the amended claim at a concrete Generation-Set member. -/
theorem c1_witness :
    hasDeepCopy (.namedRef 3) [] [.namedRef 1, .namedRef 3] false = (true, false) :=
  c1_amended _ _ _ _ ⟨.namedRef 3, List.mem_cons_of_mem _ (List.mem_cons_self _ _), rfl⟩

/-! ### Claim C3 -/

/-- C3 (counterexample): a method `DeepCopy() []T` on receiver `T` is
accepted as a reusable capability with pointer shape, because `reducePointer`
reduces through any type with an `Elem()` method — slices included — not
only through one level of indirection:  `reducePointer ([]T) = (T, true)`,
so the reduced result type is identical to the reduced receiver type and the
claim's "no capability for a non-indirection result type `[]T ≠ T`" is
false. -/
theorem c3_counterexample :
    hasDeepCopy (.namedRef 0)
      [⟨"DeepCopy", 0, 1, .namedRef 0, .slice (.namedRef 0)⟩] [] false = (true, true) ∧
    reducePointer (.slice (.namedRef 0)) = (.namedRef 0, true) := by
  exact ⟨rfl, rfl⟩

/-- C3 (amended): for a type not identical to any Generation-Set member
(and with at most one declared method named `DeepCopy`, as Go method sets
guarantee), the detector reports a capability iff the type declares a method
named exactly `DeepCopy` with no parameters and one result whose type,
after reducing both receiver and result through at most one level of
element-bearing composite (pointer, slice, array, channel, or map value —
the types satisfying the duck-typed `pointer` interface), is identical to
the reduced receiver type; the reported shape is whether the unreduced
result type was such a composite, and a same-named but differently-shaped
operation is never reused. -/
theorem c3_amended (v : GoType) (ms : List GoMethod) (generating : List GoType) (p : Bool)
    (hgen : ¬ ∃ t ∈ generating, identical v t = true)
    (huniq : ms.countP (fun m => m.mname == "DeepCopy") ≤ 1) :
    ((hasDeepCopy v ms generating p).1 = true ↔
      ∃ m ∈ ms, m.mname = "DeepCopy" ∧ m.nparams = 0 ∧ m.nresults = 1 ∧
        identical (reducePointer m.ret).1 (reducePointer m.recv).1 = true) ∧
    (∀ m ∈ ms, m.mname = "DeepCopy" → m.nparams = 0 → m.nresults = 1 →
      identical (reducePointer m.ret).1 (reducePointer m.recv).1 = true →
      hasDeepCopy v ms generating p = (true, (reducePointer m.ret).2)) := by
  have hw : hasDeepCopy v ms generating p = hasDeepCopyLoop ms := by
    simp [hasDeepCopy, hgen]
  rw [hw]
  exact hasDeepCopyLoop_spec ms huniq

/-- C3 (witness): the amended claim at a concrete type with a pointer-shaped
hand-written `DeepCopy`. -/
theorem c3_witness :
    hasDeepCopy (.namedRef 0) [⟨"DeepCopy", 0, 1, .namedRef 0, .ptr (.namedRef 0)⟩] []
      false = (true, true) :=
  (c3_amended (.namedRef 0) [⟨"DeepCopy", 0, 1, .namedRef 0, .ptr (.namedRef 0)⟩] [] false
    (by simp) (by decide)).2
    ⟨"DeepCopy", 0, 1, .namedRef 0, .ptr (.namedRef 0)⟩
    (List.mem_cons_self _ _) rfl rfl rfl rfl

/-! ### Claim C7 -/

/-- C7 (counterexample): alias assignment is NOT idempotent per distinct
module path.  Registering the package `b_foo` (path `z/b_foo`) yields alias
`b_foo`; after packages `foo`/`a/foo` and `foo`/`b/foo` are registered, the
second `foo` collides and its flattened alias `b_foo` silently overwrites
the entry of `z/b_foo`; re-registering `b_foo`/`z/b_foo` then yields the
different alias `z_b_foo`. -/
theorem c7_counterexample :
    (registerAlias [] "b_foo" "z/b_foo").1 = "b_foo" ∧
    (registerAlias (registerAlias (registerAlias (registerAlias [] "b_foo" "z/b_foo").2
      "foo" "a/foo").2 "foo" "b/foo").2 "b_foo" "z/b_foo").1 = "z_b_foo" := by
  exact ⟨rfl, rfl⟩

/-- C7 (amended): the Reference/Alias Manager assigns an unseen module its
short name as alias; a short name already bound to a different module path
yields the path with separators flattened to underscores; within one run
the table keeps the invariant that each alias maps to exactly one module
path (unique keys) and each module path is assigned at most one alias
(pairwise-distinct values); re-registering a path is stationary (same alias,
unchanged table) as long as its assigned binding has not been displaced by
a later module whose flattened path collides with it — unconditional
idempotence per distinct path does not hold (see the counterexample). -/
theorem c7_amended (pname : String → String) (ps : List String) (imports : Imports)
    (n p q : String) :
    (lookupA imports n = none → registerAlias imports n p = (n, imports ++ [(n, p)])) ∧
    (lookupA imports n = some q → q ≠ p →
      registerAlias imports n p = (flattenPath p, insertA imports (flattenPath p) p)) ∧
    (lookupA imports n = some p → registerAlias imports n p = (n, imports)) ∧
    (lookupA imports n = some q → q ≠ p → lookupA imports (flattenPath p) = some p →
      registerAlias imports n p = (flattenPath p, imports)) ∧
    ((aliasRun pname ps).map Prod.fst).Nodup ∧
    ((aliasRun pname ps).map Prod.snd).Nodup := by
  refine ⟨?_, ?_, ?_, ?_, (aliasRun_inv pname ps).1,
    aliasInv_vals_nodup (aliasRun_inv pname ps)⟩
  · intro h
    simp only [registerAlias, h]
    rw [insertA_of_not_mem _ (lookupA_eq_none.1 h)]
  · intro h hne
    simp only [registerAlias, h]
    rw [if_pos (Ne.symm hne ∘ Eq.symm)]
  · intro h
    simp only [registerAlias, h]
    rw [if_neg (show ¬ p ≠ p from fun hc => hc rfl), insertA_same h]
  · intro h hne hfl
    simp only [registerAlias, h]
    rw [if_pos (Ne.symm hne ∘ Eq.symm), insertA_same hfl]

/-- C7 (witness): the amended claim's branches at concrete tables. -/
theorem c7_witness :
    registerAlias [] "foo" "a/foo" = ("foo", [("foo", "a/foo")]) ∧
    registerAlias [("foo", "a/foo")] "foo" "b/foo" =
      ("b_foo", [("foo", "a/foo"), ("b_foo", "b/foo")]) ∧
    registerAlias [("foo", "a/foo")] "foo" "a/foo" = ("foo", [("foo", "a/foo")]) ∧
    registerAlias [("foo", "a/foo"), ("b_foo", "b/foo")] "foo" "b/foo" =
      ("b_foo", [("foo", "a/foo"), ("b_foo", "b/foo")]) := by
  refine ⟨(c7_amended id [] [] "foo" "a/foo" "q").1 rfl, ?_, ?_, ?_⟩
  · have h := (c7_amended id [] [("foo", "a/foo")] "foo" "b/foo" "a/foo").2.1 rfl
      (by decide)
    rw [h]
    rfl
  · exact (c7_amended id [] [("foo", "a/foo")] "foo" "a/foo" "q").2.2.1 rfl
  · have h := (c7_amended id [] [("foo", "a/foo"), ("b_foo", "b/foo")] "foo" "b/foo"
      "a/foo").2.2.2.1 rfl (by decide) rfl
    rw [h]
    rfl

/-! ### Claim C4 -/

/-- C4: whenever a reusable deep-copy capability is detected on a
non-top-level type during the walk (here: a pre-existing capability of
shape `isP`, scanned from the declared methods of a type not in the
Generation Set), the engine emits a call to it instead of inlining and
returns without recursing (the emission is the entire output and the alias
table is untouched) — both at the direct position (call-site shape `false`)
and behind an indirection (call-site shape `true`); a value-shaped result
assigned to an indirection target is wrapped into a freshly allocated
indirection (`retV := src.DeepCopy(); sink = &retV`), an indirection-shaped
result assigned to a value target is dereferenced (`retV := src.DeepCopy();
sink = *retV`); the emission depends only on the capability's own shape
`isP` and the call-site shape — the batch-wide receiver-shape option is
not an input of the walk, so the reused capability's shape always wins over
it for that subtree. -/
theorem c4_theorem (env : List TypeDecl) (fuel : Nat) (source sink x : String) (id : Nat)
    (d : TypeDecl) (imports : Imports) (skips : List String) (generating : List GoType)
    (isP : Bool)
    (henv : env[id]? = some d)
    (hgen : ¬ ∃ t ∈ generating, identical (GoType.namedRef id) t = true)
    (hloop : hasDeepCopyLoop d.methods = (true, isP)) :
    (walkType env (fuel + 1) source sink x (.namedRef id) imports skips generating false =
      some (reuseEmit source sink false isP, imports)) ∧
    (walkType env (fuel + 1) source sink x (.ptr (.namedRef id)) imports skips generating
        false =
      some ("if " ++ source ++ " != nil \x7b\n" ++ reuseEmit source sink true isP ++
        "\x7d\n", imports)) ∧
    (∀ s k : String,
      reuseEmit s k false false = k ++ " = " ++ s ++ ".DeepCopy()\n" ∧
      reuseEmit s k true true = k ++ " = " ++ s ++ ".DeepCopy()\n" ∧
      reuseEmit s k true false =
        "retV := " ++ s ++ ".DeepCopy()\n\t" ++ k ++ " = &retV\n" ∧
      reuseEmit s k false true =
        "\x7b\n\tretV := " ++ s ++ ".DeepCopy()\n\t" ++ k ++ " = *retV\n\x7d\n") := by
  refine ⟨?_, ?_, fun s k => ⟨rfl, rfl, rfl, rfl⟩⟩
  · simp [walkType, detectReuse, getMethoder, henv, hasDeepCopy, hgen, hloop]
  · simp [walkType, detectReuse, getMethoder, henv, hasDeepCopy, hgen, hloop, underlyingT]

/-- C4 (witness): the reuse emission at the concrete `Arr` type carrying a
value-shaped hand-written `DeepCopy`. -/
theorem c4_witness :
    walkType envArr 1 "o.F" "cp.F" "p" (.namedRef 0) [] [] [] false =
      some ("cp.F = o.F.DeepCopy()\n", []) := by
  have h := (c4_theorem envArr 0 "o.F" "cp.F" "p" 0
    ⟨some "p", "example.com/p", "Arr", .array 4 (.ptr (.basic "int")),
      [⟨"DeepCopy", 0, 1, .namedRef 0, .namedRef 0⟩]⟩ [] [] [] false rfl (by simp) rfl).1
  rw [h]
  rfl

/-! ### Claim C6 -/

/-- C6: for every slice met by the walk the engine emits (inside the
`if source != nil` guard, i.e. whenever the source is non-null at run time)
an allocation of a new backing slice of the same length followed by a bulk
`copy` of the element values; then, unless the element-path selector
(`sink[i]`, receiver prefix stripped, or the bare `[i]` at top level) is in
the skip set, it recurses per-element with placeholder index `i`, and the
enclosing `for i := range` loop is emitted iff that recursive step produced
some code. -/
theorem c6_theorem (env : List TypeDecl) (fuel : Nat) (source sink x : String)
    (elem : GoType) (imports : Imports) (skips : List String) (generating : List GoType)
    (initial : Bool) (kind : String) (i1 : Imports) (inner : String) (i2 : Imports)
    (hk : getElemType env elem x imports false = (kind, i1)) :
    (stripDot (if initial then "[i]" else sink ++ "[i]") ∈ skips →
      walkType env (fuel + 1) source sink x (.slice elem) imports skips generating initial =
        some ("if " ++ source ++ " != nil \x7b\n\t" ++ sink ++ " = make([]" ++ kind ++
          ", len(" ++ source ++ "))\n" ++ "copy(" ++ sink ++ ", " ++ source ++ ")\n" ++
          "\x7d\n", i1)) ∧
    (stripDot (if initial then "[i]" else sink ++ "[i]") ∉ skips →
      walkType env fuel (source ++ "[i]") (sink ++ "[i]") x elem i1 skips generating false =
        some (inner, i2) →
      walkType env (fuel + 1) source sink x (.slice elem) imports skips generating initial =
        (if inner = "" then
          some ("if " ++ source ++ " != nil \x7b\n\t" ++ sink ++ " = make([]" ++ kind ++
            ", len(" ++ source ++ "))\n" ++ "copy(" ++ sink ++ ", " ++ source ++ ")\n" ++
            "\x7d\n", i2)
        else
          some ("if " ++ source ++ " != nil \x7b\n\t" ++ sink ++ " = make([]" ++ kind ++
            ", len(" ++ source ++ "))\n" ++ "copy(" ++ sink ++ ", " ++ source ++ ")\n" ++
            "    for i := range " ++ source ++ " \x7b\n" ++ inner ++ "\x7d\n" ++ "\x7d\n",
            i2))) := by
  constructor
  · intro hskip
    cases initial <;> simp at hskip <;>
      simp [walkType, underlyingT, detectReuse, getMethoder, hk, hskip]
  · intro hskip hrec
    cases initial <;> simp at hskip <;>
      simp [walkType, underlyingT, detectReuse, getMethoder, hk, hskip, hrec]

/-- C6 (witness): the slice case at `[]*T`, where the per-element recursion
is non-empty and the loop is emitted. -/
theorem c6_witness :
    walkType envT 5 "o.S" "cp.S" "p" (.slice (.ptr (.namedRef 0))) [] [] [] false =
      some ("if o.S != nil \x7b\n\tcp.S = make([]*T, len(o.S))\ncopy(cp.S, o.S)\n    for i := range o.S \x7b\nif o.S[i] != nil \x7b\ncp.S[i] = new(T)\n\t*cp.S[i] = *o.S[i]\n\x7d\n\x7d\n\x7d\n",
        []) := by
  have h := (c6_theorem envT 4 "o.S" "cp.S" "p" (.ptr (.namedRef 0)) [] [] [] false
    "*T" [] "if o.S[i] != nil \x7b\ncp.S[i] = new(T)\n\t*cp.S[i] = *o.S[i]\n\x7d\n" []
    rfl).2 (by simp) rfl
  rw [h]
  rfl

/-! ### Claim C2 -/

/-- C2 (counterexample): there is no separate skip selector for a map's key
and value.  For `map[*T]*T` under sink `cp.M`, the single synthesized
selector is `M[k]`: with it in the skip set, the emitted code deep-copies
NEITHER the key NOR the value (plain `cp.M[k] = v` reinsertion), and
without it BOTH are deep-copied — a key can never be skipped while the
value is deep-copied, contradicting the claim. -/
theorem c2_counterexample :
    walkType envT 5 "o.M" "cp.M" "p" (.map (.ptr (.namedRef 0)) (.ptr (.namedRef 0))) []
        ["M[k]"] [] false =
      some ("if o.M != nil \x7b\n\tcp.M = make(map[*T]*T, len(o.M))\n\tfor k, v := range o.M \x7b\ncp.M[k] = v\x7d\n\x7d\n",
        []) ∧
    walkType envT 5 "o.M" "cp.M" "p" (.map (.ptr (.namedRef 0)) (.ptr (.namedRef 0))) []
        [] [] false =
      some ("if o.M != nil \x7b\n\tcp.M = make(map[*T]*T, len(o.M))\n\tfor k, v := range o.M \x7b\nvar cp_M_k *T\nif k != nil \x7b\ncp_M_k = new(T)\n\t*cp_M_k = *k\n\x7d\nvar cp_M_v *T\nif v != nil \x7b\ncp_M_v = new(T)\n\t*cp_M_v = *v\n\x7d\ncp.M[cp_M_k] = cp_M_v\x7d\n\x7d\n",
        []) := by
  exact ⟨rfl, rfl⟩

/-- C2 (amended): for a map the key and the value of each entry are recursed
into independently, into separate synthesized temporary bindings (declared
with the statically resolved key/value type only when the recursion emitted
code, otherwise the iteration-bound `k`/`v` is reinserted directly) — but
both recursions are guarded by one shared selector, the sink path with the
`[k]` placeholder: when it matches the skip set, key and value are skipped
together; independent skipping of key versus value is not possible. -/
theorem c2_amended (env : List TypeDecl) (fuel : Nat) (source sink x : String)
    (kt vt : GoType) (imports : Imports) (skips : List String) (generating : List GoType)
    (initial : Bool) (kkind : String) (i1 : Imports) (vkind : String) (i2 : Imports)
    (bk : String) (i3 : Imports) (bv : String) (i4 : Imports)
    (hk : getElemType env kt x imports false = (kkind, i1))
    (hv : getElemType env vt x i1 false = (vkind, i2)) :
    (stripDot (if initial then "[k]" else sink ++ "[k]") ∈ skips →
      walkType env (fuel + 1) source sink x (.map kt vt) imports skips generating initial =
        some ("if " ++ source ++ " != nil \x7b\n\t" ++ sink ++ " = make(map[" ++ kkind ++
          "]" ++ vkind ++ ", len(" ++ source ++ "))\n\tfor k, v := range " ++ source ++
          " \x7b\n" ++ "" ++ "" ++ sink ++ "[" ++ "k" ++ "] = " ++ "v" ++
          "\x7d\n\x7d\n", i2)) ∧
    (stripDot (if initial then "[k]" else sink ++ "[k]") ∉ skips →
      walkType env fuel "k" (selToIdent sink ++ "_k") x kt i2 skips generating false =
        some (bk, i3) →
      walkType env fuel "v" (selToIdent sink ++ "_v") x vt i3 skips generating false =
        some (bv, i4) →
      walkType env (fuel + 1) source sink x (.map kt vt) imports skips generating initial =
        some ("if " ++ source ++ " != nil \x7b\n\t" ++ sink ++ " = make(map[" ++ kkind ++
          "]" ++ vkind ++ ", len(" ++ source ++ "))\n\tfor k, v := range " ++ source ++
          " \x7b\n" ++
          (if bk = "" then "" else "var " ++ (selToIdent sink ++ "_k") ++ " " ++ kkind ++
            "\n" ++ bk) ++
          (if bv = "" then "" else "var " ++ (selToIdent sink ++ "_v") ++ " " ++ vkind ++
            "\n" ++ bv) ++
          sink ++ "[" ++ (if bk = "" then "k" else selToIdent sink ++ "_k") ++ "] = " ++
          (if bv = "" then "v" else selToIdent sink ++ "_v") ++ "\x7d\n\x7d\n", i4)) := by
  constructor
  · intro hskip
    cases initial <;> simp at hskip <;>
      simp [walkType, underlyingT, detectReuse, getMethoder, hk, hv, hskip]
  · intro hskip hreck hrecv
    cases initial <;> simp at hskip <;>
      by_cases hbk : bk = "" <;> by_cases hbv : bv = "" <;>
        simp [walkType, underlyingT, detectReuse, getMethoder, hk, hv, hskip, hreck, hrecv,
          hbk, hbv]

/-- C2 (witness): the amended claim at `map[*T]*T` under sink `cp.N`, where
both recursions emit code and both temporaries are declared. -/
theorem c2_witness :
    walkType envT 5 "o.N" "cp.N" "p" (.map (.ptr (.namedRef 0)) (.ptr (.namedRef 0))) []
        [] [] false =
      some ("if o.N != nil \x7b\n\tcp.N = make(map[*T]*T, len(o.N))\n\tfor k, v := range o.N \x7b\nvar cp_N_k *T\nif k != nil \x7b\ncp_N_k = new(T)\n\t*cp_N_k = *k\n\x7d\nvar cp_N_v *T\nif v != nil \x7b\ncp_N_v = new(T)\n\t*cp_N_v = *v\n\x7d\ncp.N[cp_N_k] = cp_N_v\x7d\n\x7d\n",
        []) := by
  have h := (c2_amended envT 4 "o.N" "cp.N" "p" (.ptr (.namedRef 0)) (.ptr (.namedRef 0))
    [] [] [] false "*T" [] "*T" []
    "if k != nil \x7b\ncp_N_k = new(T)\n\t*cp_N_k = *k\n\x7d\n" []
    "if v != nil \x7b\ncp_N_v = new(T)\n\t*cp_N_v = *v\n\x7d\n" []
    rfl rfl).2 (by simp) rfl rfl
  rw [h]
  rfl

/-! ### Claim C10 -/

/-- C10 (counterexample): a field whose underlying type is a fixed-size
array DOES receive corrective copy code when the named type carries a
matching `DeepCopy` method — the reuse check at the top of `walkType` runs
before the kind dispatch, so the claim's "no corrective code for every
such field" is false at `Arr` (`[4]*int` underlying, hand-written
`DeepCopy`). -/
theorem c10_counterexample :
    walkType envArr 1 "o.A" "cp.A" "p" (.namedRef 0) [] [] [] false =
      some ("cp.A = o.A.DeepCopy()\n", []) ∧
    underlyingT envArr (.namedRef 0) = .array 4 (.ptr (.basic "int")) ∧
    "cp.A = o.A.DeepCopy()\n" ≠ "" := by
  exact ⟨rfl, rfl, by decide⟩

/-- C10 (amended): for every type whose underlying kind is not a struct,
slice, pointer, channel, or map — fixed-size arrays, function types,
interface types, scalars — the walk emits no corrective copy code beyond
the enclosing shallow assignment and leaves the alias table untouched,
PROVIDED no reusable deep-copy capability is detected on the type itself
(or the walk is at the top level, where the reuse check is skipped);
references reachable through such a field then stay shared with the
input. -/
theorem c10_amended (env : List TypeDecl) (fuel : Nat) (source sink x : String)
    (m : GoType) (imports : Imports) (skips : List String) (generating : List GoType)
    (initial : Bool)
    (hker : isCopyKind (underlyingT env m) = false)
    (hcap : detectReuse env m generating false = none ∨ initial = true) :
    walkType env (fuel + 1) source sink x m imports skips generating initial =
      some ("", imports) := by
  rcases hcap with hcap | hcap
  · cases initial <;>
      cases hu : underlyingT env m <;> simp [isCopyKind, hu] at hker ⊢ <;>
        simp [walkType, hu, hcap]
  · subst hcap
    cases hu : underlyingT env m <;> simp [isCopyKind, hu] at hker ⊢ <;>
      simp [walkType, hu]

/-- C10 (witness): the amended claim at a function-typed field. -/
theorem c10_witness :
    walkType [] 1 "o.F" "cp.F" "p" (.funcTy "func()") [] [] [] false = some ("", []) :=
  c10_amended [] 0 "o.F" "cp.F" "p" (.funcTy "func()") [] [] [] false rfl (Or.inl rfl)

/-! ### Claim C5 -/

/-- C5: for the spec's mutual-reference scenario — `A \x7bNext *B\x7d` and
`B \x7bPrev *A\x7d` requested together — the run terminates (the
fuel-indexed model returns `some` at fuel 4, i.e. the Go recursion
returns), each generated operation calls the other type's generated
`DeepCopy` (`cp.Next = o.Next.DeepCopy()`, `cp.Prev = o.Prev.DeepCopy()`)
instead of inlining the other's body (neither output mentions the other's
field), and the run hands the assembled source to the external formatter
and returns its verdict — with an accepting formatter the run produces the
output, for every invocation line and under both receiver-shape
configurations. -/
theorem c5_theorem (argv : List String) (pointer : Bool) :
    run envAB 4 (fun s => .ok s) argv (.ok [⟨"p", defsAB⟩]) ["A", "B"] [] pointer =
      some (.ok (assembleFile argv "p" []
        ["// DeepCopy generates a deep copy of " ++ (if pointer then "*" else "") ++
           "A\nfunc (o " ++ (if pointer then "*" else "") ++ "A) DeepCopy() " ++
           (if pointer then "*" else "") ++ "A \x7b\n\tvar cp A = " ++
           (if pointer then "*" else "") ++
           "o\nif o.Next != nil \x7b\ncp.Next = o.Next.DeepCopy()\n\x7d\n" ++
           (if pointer then "return &cp\n\x7d" else "return cp\n\x7d"),
         "// DeepCopy generates a deep copy of " ++ (if pointer then "*" else "") ++
           "B\nfunc (o " ++ (if pointer then "*" else "") ++ "B) DeepCopy() " ++
           (if pointer then "*" else "") ++ "B \x7b\n\tvar cp B = " ++
           (if pointer then "*" else "") ++
           "o\nif o.Prev != nil \x7b\ncp.Prev = o.Prev.DeepCopy()\n\x7d\n" ++
           (if pointer then "return &cp\n\x7d" else "return cp\n\x7d")])) := by
  cases pointer <;> rfl

/-! ### Claim C8 -/

/-- C8: for every run whose assembled output text does not parse (the
external formatter rejects it with message `e`), file generation fails with
an error that includes the full offending generated text, `run` propagates
it, `main` exits through the fatal path, and no output is written (no
`writeOut` event occurs — the destination is never written). -/
theorem c8_theorem (fmtSrc : String → Except String String) (argv : List String)
    (e : String) (env : List TypeDecl) (fuel : Nat) (p : GoPackage)
    (typesArg : List String) (skipsArg : List (List String)) (pointer : Bool)
    (objs : List (Nat × TypeDecl)) (fns : List String) (imports : Imports)
    (nargs : Nat) (oFlags : List String)
    (hobj : runObjs env p.pname p.defs typesArg = .ok objs)
    (hfns : runFns env fuel p.pname skipsArg pointer
      (objs.map (fun r => GoType.namedRef r.1)) objs 0 [] = some (fns, imports))
    (hfmt : fmtSrc (assembleFile argv p.pname imports fns) = .error e)
    (h1 : ¬ (typesArg = [] ∨ typesArg.head? = some ""))
    (h2 : nargs = 1) :
    (run env fuel fmtSrc argv (.ok [p]) typesArg skipsArg pointer =
      some (.error ("generating file content: " ++ ("error formatting source: " ++ e ++
        "\nsource:\n" ++ assembleFile argv p.pname imports fns)))) ∧
    (mainModel typesArg nargs oFlags
        (run env fuel fmtSrc argv (.ok [p]) typesArg skipsArg pointer) =
      (parseOutputFlags oFlags).2 ++
        [.fatal ("Error generating deep copy method: " ++ ("generating file content: " ++
          ("error formatting source: " ++ e ++ "\nsource:\n" ++
            assembleFile argv p.pname imports fns)))]) ∧
    (∀ b, MainEv.writeOut b ∉ mainModel typesArg nargs oFlags
        (run env fuel fmtSrc argv (.ok [p]) typesArg skipsArg pointer)) := by
  have hrun : run env fuel fmtSrc argv (.ok [p]) typesArg skipsArg pointer =
      some (.error ("generating file content: " ++ ("error formatting source: " ++ e ++
        "\nsource:\n" ++ assembleFile argv p.pname imports fns))) := by
    simp [run, hobj, hfns, generateFile, hfmt]
  have hmain : mainModel typesArg nargs oFlags
      (some (.error ("generating file content: " ++ ("error formatting source: " ++ e ++
        "\nsource:\n" ++ assembleFile argv p.pname imports fns)))) =
      (parseOutputFlags oFlags).2 ++
        [.fatal ("Error generating deep copy method: " ++ ("generating file content: " ++
          ("error formatting source: " ++ e ++ "\nsource:\n" ++
            assembleFile argv p.pname imports fns)))] := by
    simp [mainModel, h1, h2]
  refine ⟨hrun, by rw [hrun, hmain], ?_⟩
  intro b
  rw [hrun, hmain]
  intro hmem
  rcases List.mem_append.1 hmem with hmem | hmem
  · exact parse_no_write oFlags b hmem
  · simp at hmem

/-- C8 (witness): the malformed-output failure at a concrete run over
`envT` with a rejecting formatter and `-o out.go`. -/
theorem c8_witness :
    run envT 5 (fun _ => .error "syntax") ["deep-copy", "-type", "T", "./p"]
        (.ok [⟨"p", defsT⟩]) ["T"] [] false =
      some (.error ("generating file content: error formatting source: syntax\nsource:\n// generated by deep-copy -type T ./p; DO NOT EDIT.\n\npackage p\n\n// DeepCopy generates a deep copy of T\nfunc (o T) DeepCopy() T \x7b\n\tvar cp T = o\nreturn cp\n\x7d\n\n")) ∧
    mainModel ["T"] 1 ["out.go"]
        (run envT 5 (fun _ => .error "syntax") ["deep-copy", "-type", "T", "./p"]
          (.ok [⟨"p", defsT⟩]) ["T"] [] false) =
      [.openFile "out.go",
       .fatal ("Error generating deep copy method: generating file content: error formatting source: syntax\nsource:\n// generated by deep-copy -type T ./p; DO NOT EDIT.\n\npackage p\n\n// DeepCopy generates a deep copy of T\nfunc (o T) DeepCopy() T \x7b\n\tvar cp T = o\nreturn cp\n\x7d\n\n")] ∧
    (∀ b, MainEv.writeOut b ∉ mainModel ["T"] 1 ["out.go"]
        (run envT 5 (fun _ => .error "syntax") ["deep-copy", "-type", "T", "./p"]
          (.ok [⟨"p", defsT⟩]) ["T"] [] false)) := by
  have h := c8_theorem (fun _ => .error "syntax") ["deep-copy", "-type", "T", "./p"]
    "syntax" envT 5 ⟨"p", defsT⟩ ["T"] [] false
    [(0, ⟨some "p", "example.com/p", "T", .struct [("X", .basic "int", true)], []⟩)]
    ["// DeepCopy generates a deep copy of T\nfunc (o T) DeepCopy() T \x7b\n\tvar cp T = o\nreturn cp\n\x7d"]
    [] 1 ["out.go"] rfl rfl rfl (by decide) rfl
  refine ⟨?_, ?_, h.2.2⟩
  · rw [h.1]
    rfl
  · rw [h.2.1]
    rfl

/-! ### Claim C9 -/

/-- C9 (counterexample): the output destination is opened (and created)
during flag parsing, BEFORE generation runs, and on a generation failure
the process exits through `log.Fatalln` without closing it: with
`-o out.go` and a failing run, the event trace opens the file, never
truncates, writes, or closes it — contradicting "opened only after
successful generation" and "closed on every exit path". -/
theorem c9_counterexample :
    mainModel ["T"] 1 ["out.go"] (some (.error "boom")) =
      [.openFile "out.go", .fatal "Error generating deep copy method: boom"] ∧
    MainEv.openFile "out.go" ∈ mainModel ["T"] 1 ["out.go"] (some (.error "boom")) ∧
    MainEv.closeFile ∉ mainModel ["T"] 1 ["out.go"] (some (.error "boom")) := by
  refine ⟨rfl, by decide, by decide⟩

/-- C9 (amended): the `-o` destination is opened (creating the file if
absent) while the flags are parsed, before any generation; on the success
path it is truncated just before the write and closed after it (stdout is
used unopened when no file was given); on a generation failure the process
exits fatally right after the parse events, performing no truncate, no
write, and — when a single `-o path` was given — no close. -/
theorem c9_amended (typesArg : List String) (nargs : Nat) (oFlags : List String)
    (e b path : String)
    (h1 : ¬ (typesArg = [] ∨ typesArg.head? = some ""))
    (h2 : nargs = 1) :
    (mainModel typesArg nargs oFlags (some (.error e)) =
      (parseOutputFlags oFlags).2 ++
        [.fatal ("Error generating deep copy method: " ++ e)]) ∧
    ((parseOutputFlags oFlags).1.file = some path →
      mainModel typesArg nargs oFlags (some (.ok b)) =
        (parseOutputFlags oFlags).2 ++ [.truncateFile, .writeOut b, .closeFile]) ∧
    ((parseOutputFlags oFlags).1.file = none →
      mainModel typesArg nargs oFlags (some (.ok b)) =
        (parseOutputFlags oFlags).2 ++ [.useStdout, .writeOut b, .closeFile]) ∧
    (path ≠ "-" → path ≠ "" →
      parseOutputFlags [path] = (⟨some path, path⟩, [.openFile path])) ∧
    (path ≠ "-" → path ≠ "" →
      MainEv.closeFile ∉ mainModel typesArg nargs [path] (some (.error e))) := by
  have hmainerr : ∀ oF : List String, mainModel typesArg nargs oF (some (.error e)) =
      (parseOutputFlags oF).2 ++ [.fatal ("Error generating deep copy method: " ++ e)] := by
    intro oF
    simp [mainModel, h1, h2]
  have hparse : path ≠ "-" → path ≠ "" →
      parseOutputFlags [path] = (⟨some path, path⟩, [.openFile path]) := by
    intro hp1 hp2
    simp [parseOutputFlags, outputSet, hp1, hp2]
  refine ⟨hmainerr oFlags, ?_, ?_, hparse, ?_⟩
  · intro hf
    simp [mainModel, h1, h2, hf]
  · intro hf
    simp [mainModel, h1, h2, hf]
  · intro hp1 hp2
    rw [hmainerr [path], hparse hp1 hp2]
    simp

/-- C9 (witness): the amended claim at a run writing `deep.go`: success
truncates, writes and closes after the parse-time open; failure stops at
the fatal exit with no close. -/
theorem c9_witness :
    mainModel ["T"] 1 ["deep.go"] (some (.ok "code")) =
      [.openFile "deep.go", .truncateFile, .writeOut "code", .closeFile] ∧
    MainEv.closeFile ∉ mainModel ["T"] 1 ["deep.go"] (some (.error "fail")) := by
  have h := c9_amended ["T"] 1 ["deep.go"] "fail" "code" "deep.go" (by decide) rfl
  constructor
  · rw [h.2.1 rfl]
    rfl
  · exact h.2.2.2.2 (by decide) (by decide)

end DeepCopyGo
